import Mathlib

/-!
Shallow embedding of `src/geometry/shape/interval/util.ts`: the interval /
funnel path-construction utilities of the G2 charting library.

Numbers are modelled as rationals (`ℚ`).  A JavaScript value that would be
`undefined` (an out-of-range index, a missing object field) is modelled with
`Option`; an expression whose evaluation would throw, or would propagate an
`undefined` into arithmetic, yields `none`.
-/

/-- A coordinate pair, as in `interface Point { x, y }`. -/
structure Point where
  x : ℚ
  y : ℚ
deriving DecidableEq, Repr

/-- A path command: `['M',x,y]`, `['L',x,y]`, `['A',rx,ry,rot,laf,sweep,x,y]`
or `['z']` / `['Z']` in the source. -/
inductive PathCommand where
  | M (x y : ℚ)
  | L (x y : ℚ)
  | A (rx ry rot laf sweep x y : ℚ)
  | Z
deriving DecidableEq, Repr

/-- A `radius` value: in the source, `number | number[]`. -/
inductive RadiusSpec where
  | num (v : ℚ)
  | list (l : List ℚ)
deriving DecidableEq, Repr

/-- JavaScript truthiness of a `radius` value: `0` is falsy, every array
(including `[]`) is truthy. -/
def RadiusSpec.truthy : RadiusSpec → Bool
  | .num v => v != 0
  | .list _ => true

/-- `parseRadius(radius)`.  Branches on `isArray` and on the list length
exactly as the source does; the `else` branch reads `radius[0] .. radius[3]`,
so a list shorter than 4 that reaches it (length 0) yields `none`
(`undefined` entries in JavaScript). -/
def parseRadius : RadiusSpec → Option (List ℚ)
  | .num v => some [v, v, v, v]
  | .list radius =>
    if radius.length = 1 then
      radius.get? 0 |>.map (fun a => [a, a, a, a])
    else if radius.length = 2 then do
      let a ← radius.get? 0
      let b ← radius.get? 1
      pure [a, b, a, b]
    else if radius.length = 3 then do
      let a ← radius.get? 0
      let b ← radius.get? 1
      let c ← radius.get? 2
      pure [a, b, c, b]
    else do
      let a ← radius.get? 0
      let b ← radius.get? 1
      let c ← radius.get? 2
      let d ← radius.get? 3
      pure [a, b, c, d]

/-- An `x` or `y` field of a `ShapePoint`: scalar or array
(`number | number[]`). -/
inductive Value where
  | scalar (v : ℚ)
  | range (l : List ℚ)
deriving DecidableEq, Repr

/-- `ShapePoint`: `x`, `y` (scalar or range), baseline `y0` and width `size`
(both possibly absent, hence `Option`). -/
structure ShapePoint where
  x : Value
  y : Value
  y0 : Option ℚ
  size : Option ℚ
deriving DecidableEq, Repr

/-- `getRectPoints(pointInfo, isPyramid)`: derive the key points of the
rectangle (or pyramid triangle).  `[yMin, yMax] = y` destructuring is
modelled by `get? 0` / `get? 1`; reading a missing `y0` / `size` yields
`none`. -/
def getRectPoints (pointInfo : ShapePoint) (isPyramid : Bool := false) :
    Option (List Point) := do
  let (yMin, yMax) ←
    match pointInfo.y with
    | .range l => do
      let a ← l.get? 0
      let b ← l.get? 1
      pure (a, b)
    | .scalar v => do
      let b ← pointInfo.y0
      pure (b, v)
  let (xMin, xMax) ←
    match pointInfo.x with
    | .range l => do
      let a ← l.get? 0
      let b ← l.get? 1
      pure (a, b)
    | .scalar v => do
      let s ← pointInfo.size
      pure (v - s / 2, v + s / 2)
  let base : List Point := [⟨xMin, yMin⟩, ⟨xMin, yMax⟩]
  if isPyramid then
    pure (base ++ [⟨xMax, (yMax + yMin) / 2⟩])
  else
    pure (base ++ [⟨xMax, yMax⟩, ⟨xMax, yMin⟩])

/-- `getRectPath(points, isClosed = true)`: `M` to the first point, `L` to
each later point, and when closed an extra `L` back to the first point and a
`z`.  On an empty list the source throws (`points[0].x` on `undefined`),
modelled as `none`. -/
def getRectPath (points : List Point) (isClosed : Bool := true) :
    Option (List PathCommand) :=
  match points with
  | [] => none
  | first :: rest =>
    some ([PathCommand.M first.x first.y]
      ++ rest.map (fun p => PathCommand.L p.x p.y)
      ++ if isClosed then [PathCommand.L first.x first.y, PathCommand.Z] else [])

/-- The coordinate-system collaborator: plot width and height, transposition
flag, type discriminator (`'rect'` vs. other), forward and inverse point
transforms. -/
structure Coordinate where
  width : ℚ
  height : ℚ
  isTransposed : Bool
  ctype : String
  convert : Point → Point
  invertPoint : Point → Point

/-- The optional `style` argument of `getIntervalRectPath`. -/
structure IntervalStyle where
  radius : Option RadiusSpec

/-- `style?.radius`: `none` when the style or its `radius` field is absent. -/
def styleRadius (style : Option IntervalStyle) : Option RadiusSpec :=
  style.bind IntervalStyle.radius

/-- Replace the trailing coordinate pair of a command by its image under
`coor.invertPoint` — the `p.splice(-2, 2, inverted.x, inverted.y)` loop.
(`Z` carries no coordinates; in the source the loop runs before the closing
`'z'` is pushed, so it never sees one.) -/
def invertLast (coor : Coordinate) : PathCommand → PathCommand
  | .M x y => let p := coor.invertPoint ⟨x, y⟩; .M p.x p.y
  | .L x y => let p := coor.invertPoint ⟨x, y⟩; .L p.x p.y
  | .A rx ry rot laf sw x y => let p := coor.invertPoint ⟨x, y⟩; .A rx ry rot laf sw p.x p.y
  | .Z => .Z

/-- `getIntervalRectPath(points, lineCap, coor, style)`.  `r` and `ry` are
computed up front from `points[1]` and `points[2]` (reading past the end of
`points` yields `none`, as the source would throw); then the three branches:
round line cap, truthy `style?.radius`, or the plain closed rect path. -/
def getIntervalRectPath (points : List Point) (lineCap : String)
    (coor : Coordinate) (style : Option IntervalStyle := none) :
    Option (List PathCommand) := do
  let p1 ← points.get? 1
  let p2 ← points.get? 2
  let r := (p2.x - p1.x) / 2
  let ry := if coor.isTransposed then r * coor.height / coor.width
            else r * coor.width / coor.height
  if lineCap = "round" then
    let p0 ← points.get? 0
    let p3 ← points.get? 3
    if coor.ctype = "rect" then
      pure [PathCommand.M p0.x (p0.y + ry),
            PathCommand.L p1.x (p1.y - ry),
            PathCommand.A r r 0 0 1 p2.x (p2.y - ry),
            PathCommand.L p3.x (p3.y + ry),
            PathCommand.A r r 0 0 1 p0.x (p0.y + ry),
            PathCommand.Z]
    else
      pure [PathCommand.M p0.x p0.y,
            PathCommand.L p1.x p1.y,
            PathCommand.A r r 0 0 1 p2.x p2.y,
            PathCommand.L p3.x p3.y,
            PathCommand.A r r 0 0 1 p0.x p0.y,
            PathCommand.Z]
  else
    match styleRadius style with
    | some spec =>
      if spec.truthy then do
        let rs ← parseRadius spec
        let r1 ← rs.get? 0
        let r2 ← rs.get? 1
        let r3 ← rs.get? 2
        let r4 ← rs.get? 3
        let converted := points.map coor.convert
        let c0 ← converted.get? 0
        let c1 ← converted.get? 1
        let c2 ← converted.get? 2
        let c3 ← converted.get? 3
        let visual : List PathCommand :=
          [PathCommand.M c0.x (c0.y - r1),
           PathCommand.L c1.x (c1.y + r2)]
          ++ (if r2 ≠ 0 then [PathCommand.A r2 r2 0 0 1 (c1.x + r2) c1.y] else [])
          ++ [PathCommand.L (c2.x - r3) c2.y]
          ++ (if r3 ≠ 0 then [PathCommand.A r3 r3 0 0 1 c2.x (c2.y + r3)] else [])
          ++ [PathCommand.L c3.x (c3.y - r4)]
          ++ (if r4 ≠ 0 then [PathCommand.A r4 r4 0 0 1 (c3.x - r4) c3.y] else [])
          ++ [PathCommand.L (c0.x + r1) c0.y]
          ++ (if r1 ≠ 0 then [PathCommand.A r1 r1 0 0 1 c0.x (c0.y - r1)] else [])
        pure (visual.map (invertLast coor) ++ [PathCommand.Z])
      else
        getRectPath points true
    | none => getRectPath points true

/-- `getFunnelPath(points, nextPoints, isPyramid)`: trapezoid band to the
next level when `nextPoints` is present, else a degenerate triangle
(pyramid) or the mark's own quadrilateral. -/
def getFunnelPath (points : List Point) (nextPoints : Option (List Point))
    (isPyramid : Bool) : Option (List PathCommand) :=
  match nextPoints with
  | some np => do
    let p0 ← points.get? 0
    let p1 ← points.get? 1
    let n1 ← np.get? 1
    let n0 ← np.get? 0
    pure [PathCommand.M p0.x p0.y,
          PathCommand.L p1.x p1.y,
          PathCommand.L n1.x n1.y,
          PathCommand.L n0.x n0.y,
          PathCommand.Z]
  | none =>
    if isPyramid then do
      let p0 ← points.get? 0
      let p1 ← points.get? 1
      let p2 ← points.get? 2
      pure [PathCommand.M p0.x p0.y,
            PathCommand.L p1.x p1.y,
            PathCommand.L p2.x p2.y,
            PathCommand.L p2.x p2.y,
            PathCommand.Z]
    else do
      let p0 ← points.get? 0
      let p1 ← points.get? 1
      let p2 ← points.get? 2
      let p3 ← points.get? 3
      pure [PathCommand.M p0.x p0.y,
            PathCommand.L p1.x p1.y,
            PathCommand.L p2.x p2.y,
            PathCommand.L p3.x p3.y,
            PathCommand.Z]

/-- The trailing coordinate pair carried by a command, if any (`Z` carries
none). -/
def PathCommand.endPoint : PathCommand → Option Point
  | .M x y => some ⟨x, y⟩
  | .L x y => some ⟨x, y⟩
  | .A _ _ _ _ _ x y => some ⟨x, y⟩
  | .Z => none

/-- Whether a command is an arc. -/
def PathCommand.isArc : PathCommand → Bool
  | .A _ _ _ _ _ _ _ => true
  | _ => false

/-- The round-cap branch of `getIntervalRectPath` as a standalone emitter,
used to state which mode the dispatcher selects. -/
def roundCapPath (points : List Point) (coor : Coordinate) :
    Option (List PathCommand) := do
  let p1 ← points.get? 1
  let p2 ← points.get? 2
  let r := (p2.x - p1.x) / 2
  let ry := if coor.isTransposed then r * coor.height / coor.width
            else r * coor.width / coor.height
  let p0 ← points.get? 0
  let p3 ← points.get? 3
  if coor.ctype = "rect" then
    pure [PathCommand.M p0.x (p0.y + ry),
          PathCommand.L p1.x (p1.y - ry),
          PathCommand.A r r 0 0 1 p2.x (p2.y - ry),
          PathCommand.L p3.x (p3.y + ry),
          PathCommand.A r r 0 0 1 p0.x (p0.y + ry),
          PathCommand.Z]
  else
    pure [PathCommand.M p0.x p0.y,
          PathCommand.L p1.x p1.y,
          PathCommand.A r r 0 0 1 p2.x p2.y,
          PathCommand.L p3.x p3.y,
          PathCommand.A r r 0 0 1 p0.x p0.y,
          PathCommand.Z]

/-- The per-corner-radius branch of `getIntervalRectPath` as a standalone
emitter, used to state which mode the dispatcher selects. -/
def perCornerPath (points : List Point) (coor : Coordinate)
    (spec : RadiusSpec) : Option (List PathCommand) := do
  let rs ← parseRadius spec
  let r1 ← rs.get? 0
  let r2 ← rs.get? 1
  let r3 ← rs.get? 2
  let r4 ← rs.get? 3
  let converted := points.map coor.convert
  let c0 ← converted.get? 0
  let c1 ← converted.get? 1
  let c2 ← converted.get? 2
  let c3 ← converted.get? 3
  let visual : List PathCommand :=
    [PathCommand.M c0.x (c0.y - r1),
     PathCommand.L c1.x (c1.y + r2)]
    ++ (if r2 ≠ 0 then [PathCommand.A r2 r2 0 0 1 (c1.x + r2) c1.y] else [])
    ++ [PathCommand.L (c2.x - r3) c2.y]
    ++ (if r3 ≠ 0 then [PathCommand.A r3 r3 0 0 1 c2.x (c2.y + r3)] else [])
    ++ [PathCommand.L c3.x (c3.y - r4)]
    ++ (if r4 ≠ 0 then [PathCommand.A r4 r4 0 0 1 (c3.x - r4) c3.y] else [])
    ++ [PathCommand.L (c0.x + r1) c0.y]
    ++ (if r1 ≠ 0 then [PathCommand.A r1 r1 0 0 1 c0.x (c0.y - r1)] else [])
  pure (visual.map (invertLast coor) ++ [PathCommand.Z])

/-- A concrete rectangular coordinate system whose transforms are the
identity, for instantiating theorems. -/
def idCoor : Coordinate :=
  ⟨100, 100, false, "rect", fun p => p, fun p => p⟩

/-- A concrete rectangular coordinate system whose `invertPoint` is a left
inverse of `convert` (a translation and its undoing). -/
def shiftCoor : Coordinate :=
  ⟨100, 50, false, "rect", fun p => ⟨p.x + 1, p.y - 2⟩,
   fun p => ⟨p.x - 1, p.y + 2⟩⟩

/-- A concrete rectangular coordinate system whose `invertPoint` is NOT an
inverse of `convert` (`convert` translates, `invertPoint` is the identity),
making the forward/backward round-trip observable. -/
def skewCoor : Coordinate :=
  ⟨100, 100, false, "rect", fun p => ⟨p.x + 1, p.y⟩, fun p => p⟩

/-- C5: the radius normalizer returns exactly four values whenever it
returns, and on each specified input shape it returns the stated
quadruple: a scalar `v` gives `(v,v,v,v)`; `[a]` gives `(a,a,a,a)`;
`[a,b]` gives `(a,b,a,b)`; `[a,b,c]` gives `(a,b,c,b)`; `[a,b,c,d]` gives
`(a,b,c,d)`. -/
theorem parseRadius_spec (v a b c d : ℚ) :
    (∀ spec out, parseRadius spec = some out → out.length = 4)
    ∧ parseRadius (.num v) = some [v, v, v, v]
    ∧ parseRadius (.list [a]) = some [a, a, a, a]
    ∧ parseRadius (.list [a, b]) = some [a, b, a, b]
    ∧ parseRadius (.list [a, b, c]) = some [a, b, c, b]
    ∧ parseRadius (.list [a, b, c, d]) = some [a, b, c, d] := by
  refine ⟨?_, rfl, rfl, rfl, rfl, rfl⟩
  intro spec out h
  match spec with
  | .num w => simp [parseRadius] at h; simp [← h]
  | .list l =>
    simp only [parseRadius, Option.bind_eq_bind, Option.pure_def] at h
    split at h
    · obtain ⟨a, -, rfl⟩ := Option.map_eq_some'.mp h
      rfl
    · split at h
      · obtain ⟨a, -, h⟩ := Option.bind_eq_some.mp h
        obtain ⟨b, -, h⟩ := Option.bind_eq_some.mp h
        simp only [Option.some_inj] at h
        simp [← h]
      · split at h
        · obtain ⟨a, -, h⟩ := Option.bind_eq_some.mp h
          obtain ⟨b, -, h⟩ := Option.bind_eq_some.mp h
          obtain ⟨c, -, h⟩ := Option.bind_eq_some.mp h
          simp only [Option.some_inj] at h
          simp [← h]
        · obtain ⟨a, -, h⟩ := Option.bind_eq_some.mp h
          obtain ⟨b, -, h⟩ := Option.bind_eq_some.mp h
          obtain ⟨c, -, h⟩ := Option.bind_eq_some.mp h
          obtain ⟨d, -, h⟩ := Option.bind_eq_some.mp h
          simp only [Option.some_inj] at h
          simp [← h]

/-- Closed-form instance of `parseRadius_spec`: its universally quantified
length conjunct applied to the concrete input `[1,2,3,4]`. -/
theorem parseRadius_spec_witness :
    ([(1 : ℚ), 2, 3, 4].length = 4)
    ∧ parseRadius (.num 5) = some [5, 5, 5, 5] :=
  ⟨(parseRadius_spec 0 0 0 0 0).1 (.list [1, 2, 3, 4]) [1, 2, 3, 4] rfl,
   (parseRadius_spec 5 0 0 0 0).2.1⟩

/-- Every successful `getRectPoints` result has the two left points followed
by the apex (pyramid) or the two right points. -/
lemma getRectPoints_shape (sp : ShapePoint) (ip : Bool) (ps : List Point)
    (h : getRectPoints sp ip = some ps) :
    ∃ xMin xMax yMin yMax : ℚ,
      ps = [⟨xMin, yMin⟩, ⟨xMin, yMax⟩] ++
        (if ip then [⟨xMax, (yMax + yMin) / 2⟩]
         else [⟨xMax, yMax⟩, ⟨xMax, yMin⟩]) := by
  obtain ⟨sx, sy, sy0, ssz⟩ := sp
  cases sy <;> cases sx <;>
    simp only [getRectPoints, Option.bind_eq_bind, Option.some_bind,
      Option.pure_def] at h
  · obtain ⟨_, -, h⟩ := Option.bind_eq_some.mp h
    obtain ⟨_, -, h⟩ := Option.bind_eq_some.mp h
    cases ip <;> simp at h <;> exact ⟨_, _, _, _, h.symm⟩
  · obtain ⟨_, -, h⟩ := Option.bind_eq_some.mp h
    obtain ⟨_, -, h⟩ := Option.bind_eq_some.mp h
    obtain ⟨_, -, h⟩ := Option.bind_eq_some.mp h
    cases ip <;> simp at h <;> exact ⟨_, _, _, _, h.symm⟩
  · obtain ⟨_, -, h⟩ := Option.bind_eq_some.mp h
    obtain ⟨_, -, h⟩ := Option.bind_eq_some.mp h
    obtain ⟨_, -, h⟩ := Option.bind_eq_some.mp h
    cases ip <;> simp at h <;> exact ⟨_, _, _, _, h.symm⟩
  · obtain ⟨_, -, h⟩ := Option.bind_eq_some.mp h
    obtain ⟨_, -, h⟩ := Option.bind_eq_some.mp h
    obtain ⟨_, -, h⟩ := Option.bind_eq_some.mp h
    obtain ⟨_, -, h⟩ := Option.bind_eq_some.mp h
    cases ip <;> simp at h <;> exact ⟨_, _, _, _, h.symm⟩

/-- C4: the point deriver resolves `(yMin, yMax)` from a range `y` or from
`(y0, y)`, resolves `(xMin, xMax)` from a range `x` or from
`(x - size/2, x + size/2)`, and emits `(xMin,yMin), (xMin,yMax)` followed by
the apex `(xMax, (yMin+yMax)/2)` when `isPyramid`, else `(xMax,yMax),
(xMax,yMin)`; output length is 3 when `isPyramid` and 4 otherwise, and
points 0 and 1 always share the minimum x.  All four scalar/range
combinations are covered. -/
theorem getRectPoints_spec (ip : Bool) (xv yv y0v sz a b c d : ℚ)
    (oy os : Option ℚ) :
    (getRectPoints ⟨.scalar xv, .scalar yv, some y0v, some sz⟩ ip
      = some ([⟨xv - sz / 2, y0v⟩, ⟨xv - sz / 2, yv⟩] ++
          (if ip then [⟨xv + sz / 2, (y0v + yv) / 2⟩]
           else [⟨xv + sz / 2, yv⟩, ⟨xv + sz / 2, y0v⟩])))
    ∧ (getRectPoints ⟨.scalar xv, .range [a, b], oy, some sz⟩ ip
      = some ([⟨xv - sz / 2, a⟩, ⟨xv - sz / 2, b⟩] ++
          (if ip then [⟨xv + sz / 2, (a + b) / 2⟩]
           else [⟨xv + sz / 2, b⟩, ⟨xv + sz / 2, a⟩])))
    ∧ (getRectPoints ⟨.range [c, d], .scalar yv, some y0v, os⟩ ip
      = some ([⟨c, y0v⟩, ⟨c, yv⟩] ++
          (if ip then [⟨d, (y0v + yv) / 2⟩] else [⟨d, yv⟩, ⟨d, y0v⟩])))
    ∧ (getRectPoints ⟨.range [c, d], .range [a, b], oy, os⟩ ip
      = some ([⟨c, a⟩, ⟨c, b⟩] ++
          (if ip then [⟨d, (a + b) / 2⟩] else [⟨d, b⟩, ⟨d, a⟩])))
    ∧ (∀ sp ps, getRectPoints sp ip = some ps →
        ps.length = if ip then 3 else 4)
    ∧ (∀ sp ps, getRectPoints sp ip = some ps →
        (ps.get? 0).map Point.x = (ps.get? 1).map Point.x) := by
  refine ⟨?_, ?_, ?_, ?_, ?_, ?_⟩
  · cases ip <;> simp [getRectPoints, add_comm]
  · cases ip <;> simp [getRectPoints, add_comm]
  · cases ip <;> simp [getRectPoints, add_comm]
  · cases ip <;> simp [getRectPoints, add_comm]
  · intro sp ps h
    obtain ⟨xMin, xMax, yMin, yMax, rfl⟩ := getRectPoints_shape sp ip ps h
    cases ip <;> simp
  · intro sp ps h
    obtain ⟨xMin, xMax, yMin, yMax, rfl⟩ := getRectPoints_shape sp ip ps h
    cases ip <;> simp

/-- Closed-form instance of `getRectPoints_spec`: a bar at
`x=10, size=4, y0=2, y=6` giving `[(8,2),(8,6),(12,6),(12,2)]`, together
with its length conjunct applied to that input. -/
theorem getRectPoints_spec_witness :
    getRectPoints ⟨.scalar 10, .scalar 6, some 2, some 4⟩ false
      = some [⟨8, 2⟩, ⟨8, 6⟩, ⟨12, 6⟩, ⟨12, 2⟩]
    ∧ [(⟨8, 2⟩ : Point), ⟨8, 6⟩, ⟨12, 6⟩, ⟨12, 2⟩].length = 4 := by
  have h := getRectPoints_spec false 10 6 2 4 0 0 0 0 none none
  have h1 := h.1
  norm_num at h1
  exact ⟨h1, h.2.2.2.2.1 _ _ h1⟩

/-- C7: the straight emitter starts with a `Move` to the first point and a
`Line` to each later point in order; when closed it appends a `Line` back to
the first point and a `Close` (length n + 2), otherwise nothing (length n). -/
theorem getRectPath_spec (p : Point) (rest : List Point) :
    (getRectPath (p :: rest) true
      = some ([PathCommand.M p.x p.y]
          ++ rest.map (fun q => PathCommand.L q.x q.y)
          ++ [PathCommand.L p.x p.y, PathCommand.Z]))
    ∧ (getRectPath (p :: rest) false
      = some ([PathCommand.M p.x p.y]
          ++ rest.map (fun q => PathCommand.L q.x q.y)))
    ∧ ([PathCommand.M p.x p.y]
        ++ rest.map (fun q => PathCommand.L q.x q.y)
        ++ [PathCommand.L p.x p.y, PathCommand.Z]).length
      = (p :: rest).length + 2
    ∧ ([PathCommand.M p.x p.y]
        ++ rest.map (fun q => PathCommand.L q.x q.y)).length
      = (p :: rest).length := by
  refine ⟨rfl, by simp [getRectPath], by simp, by simp⟩

/-- C6: the funnel emitter draws `p0 → p1 → next1 → next0 → close` when a
next level is supplied (five commands), `p0 → p1 → p2 → p2 → close` for the
pyramid tip, and `p0 → p1 → p2 → p3 → close` for the plain funnel bottom. -/
theorem getFunnelPath_spec (p0 p1 p2 p3 n0 n1 : Point) (ps ns : List Point)
    (ip : Bool) :
    (getFunnelPath (p0 :: p1 :: ps) (some (n0 :: n1 :: ns)) ip
      = some [PathCommand.M p0.x p0.y, PathCommand.L p1.x p1.y,
              PathCommand.L n1.x n1.y, PathCommand.L n0.x n0.y,
              PathCommand.Z])
    ∧ (getFunnelPath (p0 :: p1 :: p2 :: ps) none true
      = some [PathCommand.M p0.x p0.y, PathCommand.L p1.x p1.y,
              PathCommand.L p2.x p2.y, PathCommand.L p2.x p2.y,
              PathCommand.Z])
    ∧ (getFunnelPath [p0, p1, p2, p3] none false
      = some [PathCommand.M p0.x p0.y, PathCommand.L p1.x p1.y,
              PathCommand.L p2.x p2.y, PathCommand.L p3.x p3.y,
              PathCommand.Z]) :=
  ⟨rfl, rfl, rfl⟩

/-- C10: with at least two points in each list, the funnel emitter's output
ignores the `isPyramid` flag and every element of either list beyond the
first two. -/
theorem getFunnelPath_heads_only (p0 p1 n0 n1 : Point)
    (ps ps' ns ns' : List Point) (ip ip' : Bool) :
    getFunnelPath (p0 :: p1 :: ps) (some (n0 :: n1 :: ns)) ip
      = getFunnelPath (p0 :: p1 :: ps') (some (n0 :: n1 :: ns')) ip' :=
  rfl

/-- C1: with `lineCap = 'round'`, for any 4-point list the emitter uses
`r = (points[2].x - points[1].x)/2` and
`ry = isTransposed ? r*height/width : r*width/height`; in a rectangular
coordinate system it emits exactly `Move, Line, Arc, Line, Arc, Close` with
the `ry` insets, and in any other coordinate system the same six commands
with no `ry` offset; both arcs use the identical radius `r` with sweep flag
1 and the path ends with `Close`. -/
theorem roundCap_spec (p0 p1 p2 p3 : Point) (coor : Coordinate)
    (style : Option IntervalStyle) (r ry : ℚ)
    (hr : r = (p2.x - p1.x) / 2)
    (hry : ry = if coor.isTransposed then r * coor.height / coor.width
                else r * coor.width / coor.height) :
    getIntervalRectPath [p0, p1, p2, p3] "round" coor style =
      some (if coor.ctype = "rect" then
        [PathCommand.M p0.x (p0.y + ry),
         PathCommand.L p1.x (p1.y - ry),
         PathCommand.A r r 0 0 1 p2.x (p2.y - ry),
         PathCommand.L p3.x (p3.y + ry),
         PathCommand.A r r 0 0 1 p0.x (p0.y + ry),
         PathCommand.Z]
      else
        [PathCommand.M p0.x p0.y,
         PathCommand.L p1.x p1.y,
         PathCommand.A r r 0 0 1 p2.x p2.y,
         PathCommand.L p3.x p3.y,
         PathCommand.A r r 0 0 1 p0.x p0.y,
         PathCommand.Z]) := by
  subst hr hry
  by_cases hc : coor.ctype = "rect" <;> simp [getIntervalRectPath, hc]

/-- Closed-form instance of `roundCap_spec` at a concrete pill: points
`(0,0),(0,4),(6,4),(6,0)` in the identity rectangular system give `r = 3`
and `ry = 3`. -/
theorem roundCap_spec_witness :
    getIntervalRectPath [⟨0, 0⟩, ⟨0, 4⟩, ⟨6, 4⟩, ⟨6, 0⟩] "round" idCoor none =
      some (if idCoor.ctype = "rect" then
        [PathCommand.M 0 (0 + 3), PathCommand.L 0 (4 - 3),
         PathCommand.A 3 3 0 0 1 6 (4 - 3), PathCommand.L 6 (0 + 3),
         PathCommand.A 3 3 0 0 1 0 (0 + 3), PathCommand.Z]
      else
        [PathCommand.M 0 0, PathCommand.L 0 4,
         PathCommand.A 3 3 0 0 1 6 4, PathCommand.L 6 0,
         PathCommand.A 3 3 0 0 1 0 0, PathCommand.Z]) :=
  roundCap_spec ⟨0, 0⟩ ⟨0, 4⟩ ⟨6, 4⟩ ⟨6, 0⟩ idCoor none 3 3
    (by norm_num) (by norm_num [idCoor])

/-- C3 counterexample: a style whose radius is the number 0 does specify a
radius, yet with `lineCap = 'butt'` the emitter falls back to the straight
closed path, which differs from what per-corner radius mode would emit
(observable because `skewCoor`'s round-trip is not the identity). -/
theorem dispatch_zero_radius_counterexample :
    getIntervalRectPath [⟨0, 0⟩, ⟨0, 4⟩, ⟨6, 4⟩, ⟨6, 0⟩] "butt" skewCoor
        (some ⟨some (.num 0)⟩)
      = getRectPath [⟨0, 0⟩, ⟨0, 4⟩, ⟨6, 4⟩, ⟨6, 0⟩] true
    ∧ getIntervalRectPath [⟨0, 0⟩, ⟨0, 4⟩, ⟨6, 4⟩, ⟨6, 0⟩] "butt" skewCoor
        (some ⟨some (.num 0)⟩)
      ≠ perCornerPath [⟨0, 0⟩, ⟨0, 4⟩, ⟨6, 4⟩, ⟨6, 0⟩] skewCoor (.num 0) := by
  have h1 : getIntervalRectPath [⟨0, 0⟩, ⟨0, 4⟩, ⟨6, 4⟩, ⟨6, 0⟩] "butt"
      skewCoor (some ⟨some (.num 0)⟩)
      = some [PathCommand.M 0 0, PathCommand.L 0 4, PathCommand.L 6 4,
              PathCommand.L 6 0, PathCommand.L 0 0, PathCommand.Z] := by
    norm_num [getIntervalRectPath, styleRadius, RadiusSpec.truthy,
      getRectPath, eq_false (by decide : ¬ ("butt" = "round"))]
  have h2 : perCornerPath [⟨0, 0⟩, ⟨0, 4⟩, ⟨6, 4⟩, ⟨6, 0⟩] skewCoor (.num 0)
      = some [PathCommand.M 1 0, PathCommand.L 1 4, PathCommand.L 7 4,
              PathCommand.L 7 0, PathCommand.L 1 0, PathCommand.Z] := by
    norm_num [perCornerPath, parseRadius, skewCoor, invertLast]
  refine ⟨?_, ?_⟩
  · rw [h1]
    norm_num [getRectPath]
  · rw [h1, h2]
    norm_num

/-- C3 (amended): on any 4-point list, exactly one mode applies, in
precedence order: round-cap mode when `lineCap = 'round'` regardless of the
style; else per-corner radius mode when the style carries a truthy radius
(any list, or a non-zero number); else the straight emitter with
`closed = true` (in particular a scalar radius of exactly 0 falls through to
the straight emitter). -/
theorem getIntervalRectPath_dispatch (p0 p1 p2 p3 : Point) (cap : String)
    (coor : Coordinate) (style : Option IntervalStyle) :
    getIntervalRectPath [p0, p1, p2, p3] cap coor style =
      if cap = "round" then roundCapPath [p0, p1, p2, p3] coor
      else
        match styleRadius style with
        | some spec =>
          if spec.truthy then perCornerPath [p0, p1, p2, p3] coor spec
          else getRectPath [p0, p1, p2, p3] true
        | none => getRectPath [p0, p1, p2, p3] true := by
  by_cases hcap : cap = "round"
  · simp [getIntervalRectPath, roundCapPath, hcap]
  · cases hsr : styleRadius style with
    | none => simp [getIntervalRectPath, hcap, hsr]
    | some spec =>
      by_cases htru : spec.truthy <;>
        simp [getIntervalRectPath, perCornerPath, hcap, hsr, htru]

/-- C2: in per-corner radius mode (truthy radius, line cap not round) the
emitter converts the four key points through `convert`, builds the rounded
rectangle in visual space — each non-zero corner radius contributing one
circular arc with equal radii and sweep flag 1, a zero radius contributing
no arc — then maps every command's trailing coordinate pair through
`invertPoint` and appends `Close`; the path begins with a `Move` at the
bottom-left corner's rounded entry point, its last coordinate-bearing
command returns to that entry point, and it ends with `Close`. -/
theorem perCorner_spec (p0 p1 p2 p3 : Point) (lineCap : String)
    (coor : Coordinate) (spec : RadiusSpec) (r1 r2 r3 r4 : ℚ)
    (hcap : lineCap ≠ "round") (htru : spec.truthy = true)
    (hparse : parseRadius spec = some [r1, r2, r3, r4]) :
    getIntervalRectPath [p0, p1, p2, p3] lineCap coor (some ⟨some spec⟩) =
      some ((([PathCommand.M (coor.convert p0).x ((coor.convert p0).y - r1),
               PathCommand.L (coor.convert p1).x ((coor.convert p1).y + r2)]
        ++ (if r2 ≠ 0 then
              [PathCommand.A r2 r2 0 0 1 ((coor.convert p1).x + r2)
                (coor.convert p1).y] else [])
        ++ [PathCommand.L ((coor.convert p2).x - r3) (coor.convert p2).y]
        ++ (if r3 ≠ 0 then
              [PathCommand.A r3 r3 0 0 1 (coor.convert p2).x
                ((coor.convert p2).y + r3)] else [])
        ++ [PathCommand.L (coor.convert p3).x ((coor.convert p3).y - r4)]
        ++ (if r4 ≠ 0 then
              [PathCommand.A r4 r4 0 0 1 ((coor.convert p3).x - r4)
                (coor.convert p3).y] else [])
        ++ [PathCommand.L ((coor.convert p0).x + r1) (coor.convert p0).y]
        ++ (if r1 ≠ 0 then
              [PathCommand.A r1 r1 0 0 1 (coor.convert p0).x
                ((coor.convert p0).y - r1)] else [])
        ).map (invertLast coor)) ++ [PathCommand.Z])
    ∧ (∀ path,
        getIntervalRectPath [p0, p1, p2, p3] lineCap coor (some ⟨some spec⟩)
          = some path →
        path.head? = some (PathCommand.M
          (coor.invertPoint ⟨(coor.convert p0).x, (coor.convert p0).y - r1⟩).x
          (coor.invertPoint ⟨(coor.convert p0).x, (coor.convert p0).y - r1⟩).y)
        ∧ (path.filterMap PathCommand.endPoint).getLast?
            = some (coor.invertPoint
                ⟨(coor.convert p0).x, (coor.convert p0).y - r1⟩)
        ∧ path.getLast? = some PathCommand.Z) := by
  have hcap' := eq_false hcap
  constructor
  · simp [getIntervalRectPath, styleRadius, hcap', htru, hparse]
  · intro path hpath
    simp only [getIntervalRectPath, styleRadius, Option.bind_eq_bind,
      Option.some_bind, Option.pure_def, hcap', htru, hparse, if_false,
      if_true, ite_true, ite_false, List.get?_cons_zero, List.get?_cons_succ,
      List.map_cons, List.map_nil, Option.some_inj, eq_self_iff_true] at hpath
    subst hpath
    refine ⟨?_, ?_, ?_⟩
    · simp [invertLast]
    · by_cases h1 : r1 = 0 <;> by_cases h2 : r2 = 0 <;>
        by_cases h3 : r3 = 0 <;> by_cases h4 : r4 = 0 <;>
        simp [h1, h2, h3, h4, invertLast, PathCommand.endPoint]
    · by_cases h1 : r1 = 0 <;> by_cases h2 : r2 = 0 <;>
        by_cases h3 : r3 = 0 <;> by_cases h4 : r4 = 0 <;>
        simp [h1, h2, h3, h4, invertLast]

/-- Closed-form instance of `perCorner_spec`: points
`(0,0),(0,4),(6,4),(6,0)`, radius `[1,2]` (normalized to `(1,2,1,2)`),
under `shiftCoor`. -/
theorem perCorner_spec_witness :
    getIntervalRectPath [⟨0, 0⟩, ⟨0, 4⟩, ⟨6, 4⟩, ⟨6, 0⟩] "butt" shiftCoor
        (some ⟨some (.list [1, 2])⟩)
      = some [PathCommand.M 0 (-1), PathCommand.L 0 6,
              PathCommand.A 2 2 0 0 1 2 4, PathCommand.L 5 4,
              PathCommand.A 1 1 0 0 1 6 5, PathCommand.L 6 (-2),
              PathCommand.A 2 2 0 0 1 4 0, PathCommand.L 1 0,
              PathCommand.A 1 1 0 0 1 0 (-1), PathCommand.Z] := by
  rw [(perCorner_spec ⟨0, 0⟩ ⟨0, 4⟩ ⟨6, 4⟩ ⟨6, 0⟩ "butt" shiftCoor
    (.list [1, 2]) 1 2 1 2 (by decide) rfl rfl).1]
  norm_num [shiftCoor, invertLast]

/-- C8: with every corner radius 0 (but a truthy radius spec) and an
`invertPoint` that is a left inverse of `convert`, per-corner mode emits
exactly the straight emitter's closed rectangle — the same path, with no
arc command in it. -/
theorem perCorner_zero_refines (p0 p1 p2 p3 : Point) (cap : String)
    (coor : Coordinate) (spec : RadiusSpec)
    (hinv : ∀ p, coor.invertPoint (coor.convert p) = p)
    (hcap : cap ≠ "round") (htru : spec.truthy = true)
    (hparse : parseRadius spec = some [0, 0, 0, 0]) :
    getIntervalRectPath [p0, p1, p2, p3] cap coor (some ⟨some spec⟩)
      = getRectPath [p0, p1, p2, p3] true
    ∧ (∀ path,
        getIntervalRectPath [p0, p1, p2, p3] cap coor (some ⟨some spec⟩)
          = some path →
        ∀ cmd ∈ path, cmd.isArc = false) := by
  have hcap' := eq_false hcap
  have heta : ∀ q : Point, (⟨q.x, q.y⟩ : Point) = q := fun _ => rfl
  have hmain : getIntervalRectPath [p0, p1, p2, p3] cap coor
      (some ⟨some spec⟩) = getRectPath [p0, p1, p2, p3] true := by
    simp [getIntervalRectPath, getRectPath, styleRadius, invertLast, hcap',
      htru, hparse, heta, hinv]
  refine ⟨hmain, ?_⟩
  intro path hpath cmd hcmd
  rw [hmain] at hpath
  simp only [getRectPath, List.map_cons, List.map_nil, Option.some_inj,
    ite_true, if_true] at hpath
  subst hpath
  simp only [List.cons_append, List.nil_append, List.singleton_append,
    List.mem_cons, List.not_mem_nil, or_false] at hcmd
  rcases hcmd with rfl | rfl | rfl | rfl | rfl | rfl <;> rfl

/-- Closed-form instance of `perCorner_zero_refines`: radius `[0]`
(truthy, normalizing to all-zero corners) under `shiftCoor`, whose
`invertPoint` undoes its `convert`. -/
theorem perCorner_zero_refines_witness :
    (∀ p : Point, shiftCoor.invertPoint (shiftCoor.convert p) = p)
    ∧ getIntervalRectPath [⟨0, 0⟩, ⟨0, 4⟩, ⟨6, 4⟩, ⟨6, 0⟩] "butt" shiftCoor
        (some ⟨some (.list [0])⟩)
      = getRectPath [⟨0, 0⟩, ⟨0, 4⟩, ⟨6, 4⟩, ⟨6, 0⟩] true := by
  have hinv : ∀ p : Point, shiftCoor.invertPoint (shiftCoor.convert p) = p := by
    intro p
    simp [shiftCoor]
  exact ⟨hinv,
    (perCorner_zero_refines ⟨0, 0⟩ ⟨0, 4⟩ ⟨6, 4⟩ ⟨6, 0⟩ "butt" shiftCoor
      (.list [0]) hinv (by decide) rfl rfl).1⟩

/-- The radius normalizer succeeds (with a 4-element result) on every
number and on every non-empty list. -/
lemma parseRadius_isSome (spec : RadiusSpec)
    (h : match spec with | .num _ => True | .list l => 1 ≤ l.length) :
    ∃ a b c d, parseRadius spec = some [a, b, c, d] := by
  match spec with
  | .num v => exact ⟨v, v, v, v, rfl⟩
  | .list [] => simp at h
  | .list [a] => exact ⟨a, a, a, a, rfl⟩
  | .list [a, b] => exact ⟨a, b, a, b, rfl⟩
  | .list [a, b, c] => exact ⟨a, b, c, b, rfl⟩
  | .list (a :: b :: c :: d :: rest) =>
    refine ⟨a, b, c, d, ?_⟩
    simp only [parseRadius]
    rw [if_neg (by simp only [List.length_cons]; omega),
      if_neg (by simp only [List.length_cons]; omega),
      if_neg (by simp only [List.length_cons]; omega)]
    rfl

/-- C9: over well-formed input — a radius that is a number or a list of
length 1–4, a `ShapePoint` carrying the baseline/size its scalar branch
needs (with 2-element ranges), a non-empty point list for the straight
emitter, 4-point lists for the rounded emitter and 2-to-4-point lists for
the funnel emitter — every operation returns a value: no branch fails by
reading past the end of a list. -/
theorem total_on_wellformed_input :
    (∀ v : ℚ, (parseRadius (.num v)).isSome = true)
    ∧ (∀ l : List ℚ, 1 ≤ l.length → l.length ≤ 4 →
        (parseRadius (.list l)).isSome = true)
    ∧ (∀ (sp : ShapePoint) (ip : Bool),
        (match sp.y with
         | .scalar _ => sp.y0.isSome = true
         | .range l => l.length = 2) →
        (match sp.x with
         | .scalar _ => sp.size.isSome = true
         | .range l => l.length = 2) →
        (getRectPoints sp ip).isSome = true)
    ∧ (∀ (p : Point) (rest : List Point) (cl : Bool),
        (getRectPath (p :: rest) cl).isSome = true)
    ∧ (∀ (p0 p1 p2 p3 : Point) (cap : String) (coor : Coordinate)
        (style : Option IntervalStyle),
        (match styleRadius style with
         | some (.num _) => True
         | some (.list l) => 1 ≤ l.length ∧ l.length ≤ 4
         | none => True) →
        (getIntervalRectPath [p0, p1, p2, p3] cap coor style).isSome = true)
    ∧ (∀ (p0 p1 n0 n1 : Point) (ps ns : List Point) (ip : Bool),
        (getFunnelPath (p0 :: p1 :: ps) (some (n0 :: n1 :: ns)) ip).isSome
          = true)
    ∧ (∀ (p0 p1 p2 : Point) (ps : List Point),
        (getFunnelPath (p0 :: p1 :: p2 :: ps) none true).isSome = true)
    ∧ (∀ (p0 p1 p2 p3 : Point) (ps : List Point),
        (getFunnelPath (p0 :: p1 :: p2 :: p3 :: ps) none false).isSome
          = true) := by
  refine ⟨fun v => rfl, ?_, ?_, fun p rest cl => rfl, ?_,
    fun _ _ _ _ _ _ _ => rfl, fun _ _ _ _ => rfl, fun _ _ _ _ _ => rfl⟩
  · intro l h1 _
    obtain ⟨a, b, c, d, hp⟩ := parseRadius_isSome (.list l) h1
    simp [hp]
  · intro sp ip hy hx
    obtain ⟨sx, sy, sy0, ssz⟩ := sp
    cases sy with
    | scalar yv =>
      dsimp only at hy
      obtain ⟨y0v, rfl⟩ := Option.isSome_iff_exists.mp hy
      cases sx with
      | scalar xv =>
        dsimp only at hx
        obtain ⟨szv, rfl⟩ := Option.isSome_iff_exists.mp hx
        cases ip <;> simp [getRectPoints]
      | range l =>
        dsimp only at hx
        obtain ⟨a, b, rfl⟩ := List.length_eq_two.mp hx
        cases ip <;> simp [getRectPoints]
    | range l =>
      dsimp only at hy
      obtain ⟨a, b, rfl⟩ := List.length_eq_two.mp hy
      cases sx with
      | scalar xv =>
        dsimp only at hx
        obtain ⟨szv, rfl⟩ := Option.isSome_iff_exists.mp hx
        cases ip <;> simp [getRectPoints]
      | range l' =>
        dsimp only at hx
        obtain ⟨c, d, rfl⟩ := List.length_eq_two.mp hx
        cases ip <;> simp [getRectPoints]
  · intro p0 p1 p2 p3 cap coor style hwf
    by_cases hcap : cap = "round"
    · simp only [getIntervalRectPath, hcap, List.get?_cons_zero,
        List.get?_cons_succ, Option.some_bind, Option.bind_eq_bind,
        if_true, ite_true, eq_self_iff_true]
      split <;> rfl
    · have hcap' := eq_false hcap
      cases hsr : styleRadius style with
      | none => simp [getIntervalRectPath, hcap', hsr, getRectPath]
      | some spec =>
        rw [hsr] at hwf
        by_cases htru : spec.truthy
        · have hps : ∃ a b c d, parseRadius spec = some [a, b, c, d] := by
            match spec, hwf with
            | .num v, _ => exact ⟨v, v, v, v, rfl⟩
            | .list l, hwf => exact parseRadius_isSome (.list l) hwf.1
          obtain ⟨a, b, c, d, hp⟩ := hps
          simp [getIntervalRectPath, hcap', hsr, htru, hp]
        · simp [getIntervalRectPath, getRectPath, hcap', hsr, htru]

/-- Closed-form instance of `total_on_wellformed_input` at concrete
well-formed inputs for the normalizer, the point deriver and the rounded
emitter. -/
theorem total_on_wellformed_input_witness :
    (parseRadius (.list [1, 2])).isSome = true
    ∧ (getRectPoints ⟨.range [0, 1], .range [2, 3], none, none⟩ true).isSome
        = true
    ∧ (getIntervalRectPath [⟨0, 0⟩, ⟨0, 4⟩, ⟨6, 4⟩, ⟨6, 0⟩] "butt" idCoor
        (some ⟨some (.list [1, 2, 3])⟩)).isSome = true := by
  obtain ⟨-, h2, h3, -, h5, -, -, -⟩ := total_on_wellformed_input
  exact ⟨h2 [1, 2] (by norm_num) (by norm_num),
    h3 ⟨.range [0, 1], .range [2, 3], none, none⟩ true (by norm_num)
      (by norm_num),
    h5 ⟨0, 0⟩ ⟨0, 4⟩ ⟨6, 4⟩ ⟨6, 0⟩ "butt" idCoor
      (some ⟨some (.list [1, 2, 3])⟩) (by norm_num [styleRadius])⟩
